import Mathlib

/-!
Verification of the hirelog backend core against its specification.

This file is a shallow embedding of the relevant parts of the Python
source (`backend/app/...`) into Lean 4.  Each embedded definition is
translated from the source function whose name it carries; theorems at
the end of the file settle the claims about the system.

External collaborators (Firestore, FAISS, the NLP pipeline) are modelled
at their interface: a Firestore batch is an atomic list of document
writes, a field-level `Increment(n)` is a delta, the FAISS flat index is
represented by its vector count, and floats that the claims never
compute with (similarity scores) are carried as integers.
-/

namespace HireLog

/-! ## Counter Ledger — `app/api/routes/practice.py`

Practice-list questions live in a subcollection of their parent list
document; the parent carries denormalized roll-up counters
(`question_count`, `unvisited_count`, `practicing_count`,
`revised_count`, `topic_distribution`) that every child mutation
adjusts through atomic `firestore.Increment` deltas inside batched
writes.  We embed the write plans emitted by the three mutating
endpoints (`add_question`, `update_question`, `delete_question`). -/

/-- A practice-question status; `payload.status` is validated by the
`PracticeQuestionUpdate` pydantic schema to these three literals. -/
inductive QStatus where
  | unvisited
  | practicing
  | revised
deriving DecidableEq, Repr

/-- Embeds `status_field` mapping used by `update_question` / `delete_question`. -/
inductive ParentField where
  | question_count
  | unvisited_count
  | practicing_count
  | revised_count
  | topic_distribution (topic : String)
deriving DecidableEq, Repr

/-- Embeds `status_field` dict in `update_question` / `delete_question`. -/
def statusField : QStatus → ParentField
  | .unvisited => .unvisited_count
  | .practicing => .practicing_count
  | .revised => .revised_count

/-- Payload for `POST /{list_id}/questions` (`PracticeQuestionCreate`). -/
structure QuestionCreatePayload where
  question_text : String
  topic : String := "General"
  difficulty : Option String := none
  source : String := "manual"
deriving DecidableEq, Repr

/-- Payload for `PUT /{list_id}/questions/{qid}` (`PracticeQuestionUpdate`). -/
structure QuestionUpdatePayload where
  question_text : Option String := none
  topic : Option String := none
  difficulty : Option String := none
  status : Option QStatus := none
deriving DecidableEq, Repr

/-- The `updates` dict built by `update_question` (same optional fields as
the payload: a field is in the dict iff the payload field is not None). -/
abbrev QuestionUpdates := QuestionUpdatePayload

/-- Embeds `updates` dict is empty iff no payload field was provided. -/
def QuestionUpdates.isEmpty (u : QuestionUpdates) : Bool :=
  u.question_text.isNone && u.topic.isNone && u.difficulty.isNone && u.status.isNone

/-- A write against the child (question) document inside a batch. -/
inductive ChildWrite where
  | create (p : QuestionCreatePayload)
  | update (u : QuestionUpdates)
  | delete
deriving DecidableEq, Repr

/-- One document write inside a Firestore batch. -/
inductive BatchWrite where
  | child (w : ChildWrite)
  | parentInc (incs : List (ParentField × Int))
deriving DecidableEq, Repr

/-- One committed write event against the backend store.  A
`batch` commits atomically; the `single*` events are standalone
`document.update(...)` calls.  `parentFixup` is the secondary
read-then-write that recomputes `revised_percent` (and, on delete,
removes zero-count topics); it touches no status counter. -/
inductive WriteEvent where
  | batch (ws : List BatchWrite)
  | singleChild (w : ChildWrite)
  | singleParentInc (incs : List (ParentField × Int))
  | parentFixup (cleanupTopics : Bool)
deriving DecidableEq, Repr

/-- Write plan of `add_question` (practice.py lines 288–316): one batch
creating the question and incrementing `question_count`,
`unvisited_count` and the topic counter (`payload.topic or "General"`),
followed by the separate `revised_percent` recompute write. -/
def addQuestionPlan (p : QuestionCreatePayload) : List WriteEvent :=
  let topic := if p.topic = "" then "General" else p.topic
  [ .batch
      [ .child (.create p),
        .parentInc
          [ (.question_count, 1),
            (.unvisited_count, 1),
            (.topic_distribution topic, 1) ] ],
    .parentFixup false ]

/-- The extra topic-counter adjustments folded into the status-change
batch by `update_question` (practice.py lines 381–386); emitted only if
`new_topic` is truthy (non-empty) and differs from the stored topic. -/
def topicBatchIncs (updTopic : Option String) (oldTopic : String) :
    List (ParentField × Int) :=
  match updTopic with
  | some newTopic =>
    if newTopic ≠ "" ∧ newTopic ≠ oldTopic then
      [ (.topic_distribution oldTopic, (-1 : Int)),
        (.topic_distribution newTopic, 1) ]
    else []
  | none => []

/-- The standalone topic-counter write emitted by `update_question`
(practice.py lines 397–405) when the status did not change but the
topic did. -/
def topicSingleEvents (updTopic : Option String) (oldTopic : String) :
    List WriteEvent :=
  match updTopic with
  | some newTopic =>
    if newTopic ≠ oldTopic then
      [ .singleParentInc
          [ (.topic_distribution oldTopic, -1),
            (.topic_distribution newTopic, 1) ] ]
    else []
  | none => []

/-- Write plan of `update_question` (practice.py lines 351–405), given
the stored question's current status and topic.  Mirrors the source
branching: if the (non-empty) updates change the status, the question
update and the counter adjustments go into one batch — with the topic
counters folded into the same batch when a truthy topic change rides
along — followed by the `revised_percent` recompute; otherwise the
question update is a standalone write, and a topic change triggers a
second standalone parent write. -/
def updateQuestionPlan (p : QuestionUpdatePayload) (oldStatus : QStatus)
    (oldTopic : String) : List WriteEvent :=
  let updates : QuestionUpdates := p
  if updates.isEmpty then []
  else
    match updates.status with
    | some newStatus =>
      if newStatus ≠ oldStatus then
        let counterUpdates :=
          [ (statusField oldStatus, (-1 : Int)),
            (statusField newStatus, 1) ] ++ topicBatchIncs updates.topic oldTopic
        [ .batch [ .child (.update updates), .parentInc counterUpdates ],
          .parentFixup false ]
      else
        .singleChild (.update updates) :: topicSingleEvents updates.topic oldTopic
    | none =>
      .singleChild (.update updates) :: topicSingleEvents updates.topic oldTopic

/-- Write plan of `delete_question` (practice.py lines 450–478): one
batch deleting the question and decrementing `question_count`, the
counter of the question's current status, and its topic counter,
followed by the fixup write (`revised_percent` + zero-topic cleanup). -/
def deleteQuestionPlan (oldStatus : QStatus) (oldTopic : String) : List WriteEvent :=
  [ .batch
      [ .child .delete,
        .parentInc
          [ (.question_count, -1),
            (statusField oldStatus, -1),
            (.topic_distribution oldTopic, -1) ] ],
    .parentFixup true ]

/-- One counter-ledger operation against a single parent list: the data
each endpooint reads from the store before emitting its writes. -/
inductive LedgerOp where
  | add (p : QuestionCreatePayload)
  | update (p : QuestionUpdatePayload) (oldStatus : QStatus) (oldTopic : String)
  | delete (oldStatus : QStatus) (oldTopic : String)

/-- The write events each endpoint emits. -/
def LedgerOp.plan : LedgerOp → List WriteEvent
  | .add p => addQuestionPlan p
  | .update p s t => updateQuestionPlan p s t
  | .delete s t => deleteQuestionPlan s t

/-- Roll-up counters stored on a practice-list parent document.
Firestore `Increment` deltas are integers, so the fields are `Int`. -/
structure ListCounters where
  question_count : Int
  unvisited_count : Int
  practicing_count : Int
  revised_count : Int
deriving DecidableEq, Repr

/-- Parent practice-list document state (counter-relevant fields). -/
structure ParentDoc where
  counters : ListCounters
  topic_distribution : List (String × Int)
deriving DecidableEq, Repr

/-- The zero counters written by `create_practice_list`. -/
def ParentDoc.init : ParentDoc :=
  { counters := ⟨0, 0, 0, 0⟩, topic_distribution := [] }

/-- Apply one `firestore.Increment` to a topic-distribution map entry
(Firestore creates the field at the delta if it is absent). -/
def bumpTopic (m : List (String × Int)) (t : String) (n : Int) : List (String × Int) :=
  if m.any (fun e => e.1 = t) then
    m.map (fun e => if e.1 = t then (e.1, e.2 + n) else e)
  else m ++ [(t, n)]

/-- Apply one field-level atomic increment to the parent document. -/
def applyInc (d : ParentDoc) : ParentField × Int → ParentDoc
  | (.question_count, n) =>
    { d with counters := { d.counters with question_count := d.counters.question_count + n } }
  | (.unvisited_count, n) =>
    { d with counters := { d.counters with unvisited_count := d.counters.unvisited_count + n } }
  | (.practicing_count, n) =>
    { d with counters := { d.counters with practicing_count := d.counters.practicing_count + n } }
  | (.revised_count, n) =>
    { d with counters := { d.counters with revised_count := d.counters.revised_count + n } }
  | (.topic_distribution t, n) => { d with topic_distribution := bumpTopic d.topic_distribution t n }

/-- Apply a parent-counter update (a list of field increments). -/
def applyIncs (d : ParentDoc) (incs : List (ParentField × Int)) : ParentDoc :=
  incs.foldl applyInc d

/-- Commit one write inside a batch to the parent document (child
writes live in the subcollection and do not touch the parent). -/
def commitBatchWrite (d : ParentDoc) : BatchWrite → ParentDoc
  | .child _ => d
  | .parentInc incs => applyIncs d incs

/-- Commit one write event.  The fixup write removes topic entries
whose count has dropped to ≤ 0 (delete path) and recomputes the
display-only `revised_percent`, which is not part of this state. -/
def commitEvent (d : ParentDoc) : WriteEvent → ParentDoc
  | .batch ws => ws.foldl commitBatchWrite d
  | .singleChild _ => d
  | .singleParentInc incs => applyIncs d incs
  | .parentFixup cleanup =>
    if cleanup then
      { d with topic_distribution := d.topic_distribution.filter (fun e => 0 < e.2) }
    else d

/-- Commit a sequence of write events in order. -/
def commitAll (d : ParentDoc) (es : List WriteEvent) : ParentDoc :=
  es.foldl commitEvent d

/-- The counter invariant of the spec:
`question_count == unvisited_count + practicing_count + revised_count`. -/
def counterInv (d : ParentDoc) : Prop :=
  d.counters.question_count =
    d.counters.unvisited_count + d.counters.practicing_count + d.counters.revised_count

instance : DecidablePred counterInv := fun _ =>
  inferInstanceAs (Decidable (_ = _))

/-! ## Aggregation Engine — `app/api/routes/dashboard.py`

Python `dict` / `collections.Counter` objects are embedded as
association lists in first-insertion order (Python dicts preserve
insertion order); `defaultdict(set)` id-sets are duplicate-free lists.
Confidence floats are embedded as rationals. -/

/-- Look up a key in an insertion-ordered dict. -/
def assocGet (m : List (String × β)) (k : String) : Option β :=
  (m.find? (fun e => e.1 == k)).map (·.2)

/-- A stable insert for a descending sort by a numeric key: the new
element goes after every existing element with a ≥ key, exactly like
Python's stable `sorted(..., reverse=True)` places earlier elements
first among ties. -/
def insertDesc (key : α → Nat) (x : α) : List α → List α
  | [] => [x]
  | y :: ys => if key y < key x then x :: y :: ys else y :: insertDesc key x ys

/-- Stable descending sort by a numeric key (Python
`sorted(..., key=..., reverse=True)`). -/
def sortDesc (key : α → Nat) (l : List α) : List α :=
  l.foldl (fun acc x => insertDesc key x acc) []

/-- Embeds `collections.Counter` over strings: counts in first-insertion order. -/
abbrev PyCounter := List (String × Nat)

/-- Embeds `counter[k] += n`. -/
def PyCounter.inc (c : PyCounter) (k : String) (n : Nat := 1) : PyCounter :=
  if c.any (fun e => e.1 == k) then
    c.map (fun e => if e.1 == k then (e.1, e.2 + n) else e)
  else c ++ [(k, n)]

/-- Embeds `Counter.most_common()`: entries sorted by count descending,
insertion order among ties (CPython's sort is stable). -/
def PyCounter.mostCommon (c : PyCounter) : List (String × Nat) :=
  sortDesc (·.2) c

/-- Embeds `defaultdict(Counter)[k][t] += 1`. -/
def incNested (m : List (String × PyCounter)) (k t : String) :
    List (String × PyCounter) :=
  if m.any (fun e => e.1 == k) then
    m.map (fun e => if e.1 == k then (e.1, e.2.inc t) else e)
  else m ++ [(k, PyCounter.inc [] t)]

/-- Embeds `defaultdict(list)[k].append(v)`. -/
def appendEntry (m : List (String × List β)) (k : String) (v : β) :
    List (String × List β) :=
  if m.any (fun e => e.1 == k) then
    m.map (fun e => if e.1 == k then (e.1, e.2 ++ [v]) else e)
  else m ++ [(k, [v])]

/-- ASCII fragment of the regex class `\w` used by
`_STRIP_PUNCT_RE = re.compile(r"[^\w\s]")`: word characters are
alphanumerics and the underscore. -/
def isWordChar (c : Char) : Bool := c.isAlphanum || c = '_'

/-- Python `str.strip()`: drop leading and trailing whitespace. -/
def stripChars (l : List Char) : List Char :=
  ((l.dropWhile Char.isWhitespace).reverse.dropWhile Char.isWhitespace).reverse

/-- Helper for `collapseWs`: the flag records whether the previous
character was whitespace (i.e. we are inside a run already replaced). -/
def collapseWsAux : Bool → List Char → List Char
  | _, [] => []
  | prevWs, c :: rest =>
    if c.isWhitespace then
      if prevWs then collapseWsAux true rest
      else ' ' :: collapseWsAux true rest
    else c :: collapseWsAux false rest

/-- Embeds `_COLLAPSE_WS_RE.sub(" ", q)`: replace each maximal whitespace run
by a single space. -/
def collapseWs (l : List Char) : List Char := collapseWsAux false l

/-- Python `str.strip()` on a `String`, via the character list (the
built-in `String.trim` is byte-position-based and is avoided so that
concrete inputs evaluate inside the kernel). -/
def pyStrip (s : String) : String := String.mk (stripChars s.data)

/-- Embeds `_normalize_question` (dashboard.py lines 164–169): lowercase,
strip, remove punctuation, collapse whitespace, strip. -/
def normalizeQuestion (q : String) : String :=
  let s1 := stripChars (q.data.map Char.toLower)
  let s2 := s1.filter (fun c => isWordChar c || c.isWhitespace)
  String.mk (stripChars (collapseWs s2))

/-- An element of a snapshot's `extracted_questions` list: either a
question dict (with possibly-empty `question_text` / legacy `question`
fields and a confidence) or a bare string. -/
inductive RawQuestion where
  | obj (question_text : String) (question : String) (confidence : Rat)
  | txt (s : String)
deriving DecidableEq, Repr

/-- Embeds `q.get("question_text") or q.get("question", "")` for dicts
(`or` falls through on an empty string), `str(q)` otherwise. -/
def RawQuestion.text : RawQuestion → String
  | .obj qt q _ => if qt ≠ "" then qt else q
  | .txt s => s

/-- Embeds `q.get("confidence", 1.0)` for dicts, `1.0` otherwise. -/
def RawQuestion.conf : RawQuestion → Rat
  | .obj _ _ c => c
  | .txt _ => 1

/-- An `interview_experiences` document as read by the aggregation
scan (fields defaulted exactly as the `.get` calls default them). -/
structure ExperienceSnap where
  id : String
  company : String := "Unknown"
  topics : List String := []
  difficulty : String := "Unknown"
  round : String := ""
  extracted_questions : List RawQuestion := []
  is_active : Bool := true
deriving DecidableEq, Repr

/-- The confidence threshold `0.7` of `_compute_question_frequencies`,
as an explicit rational literal (7/10 in lowest terms). -/
def confThreshold : Rat := ⟨7, 10, by decide, by decide⟩

/-- Embeds `set.add` on a duplicate-free id list. -/
def insertSet (l : List String) (id : String) : List String :=
  if l.contains id then l else l ++ [id]

/-- Embeds `question_ids[norm].add(experience_id)` on the
`defaultdict(set)`. -/
def addId (m : List (String × List String)) (k id : String) :
    List (String × List String) :=
  if m.any (fun e => e.1 == k) then
    m.map (fun e => if e.1 == k then (e.1, insertSet e.2 id) else e)
  else m ++ [(k, [id])]

/-- Accumulator of `_compute_question_frequencies`:
`norm_to_original` (normalized text → first-seen original text) and
`question_ids` (normalized text → set of experience ids). -/
structure FreqAcc where
  normToOriginal : List (String × String)
  questionIds : List (String × List String)
deriving DecidableEq, Repr

/-- The body of the inner question loop of
`_compute_question_frequencies` (dashboard.py lines 189–206). -/
def processQuestion (expId : String) (acc : FreqAcc) (q : RawQuestion) : FreqAcc :=
  if q.text = "" ∨ q.conf < confThreshold then acc
  else
    let norm := normalizeQuestion q.text
    if norm = "" then acc
    else
      { normToOriginal :=
          if acc.normToOriginal.any (fun e => e.1 == norm) then acc.normToOriginal
          else acc.normToOriginal ++ [(norm, q.text)],
        questionIds := addId acc.questionIds norm expId }

/-- The two loops of `_compute_question_frequencies` that build the
accumulator over all snapshots. -/
def freqAccOf (snaps : List ExperienceSnap) : FreqAcc :=
  snaps.foldl (fun acc s => s.extracted_questions.foldl (processQuestion s.id) acc)
    ⟨[], []⟩

/-- Embeds `_compute_question_frequencies` (dashboard.py lines 172–213):
groups eligible questions by normalized text, keeps groups with at
least two contributing experience ids, sorts by group size descending
and truncates to `limit`. -/
def computeQuestionFrequencies (snaps : List ExperienceSnap) (limit : Nat) :
    List (String × Nat) :=
  let acc := freqAccOf snaps
  let frequent := acc.questionIds.filterMap (fun e =>
    if 2 ≤ e.2.length then
      some ((assocGet acc.normToOriginal e.1).getD "", e.2.length)
    else none)
  (sortDesc (·.2) frequent).take limit

/-- One stage of an interview progression summary. -/
structure ProgStage where
  topics : List String
  frequency : Nat
deriving DecidableEq, Repr

/-- Per-company progression summary. -/
structure ProgSummary where
  stages : List (String × ProgStage)
  total_experiences : Nat
deriving DecidableEq, Repr

/-- The `company_rounds` map of `_compute_interview_progression`
(dashboard.py lines 218–227): company → appended
`(round_name, topics[:3])` pairs, skipping snapshots with a blank
round name. -/
def companyRounds (snaps : List ExperienceSnap) :
    List (String × List (String × List String)) :=
  snaps.foldl (fun m s =>
    let roundName := pyStrip s.round
    if roundName ≠ "" then appendEntry m s.company (roundName, s.topics.take 3)
    else m) []

/-- Embeds `_compute_interview_progression` (dashboard.py lines 216–257). -/
def computeInterviewProgression (snaps : List ExperienceSnap) (limit : Nat) :
    List (String × ProgSummary) :=
  ((sortDesc (fun e => e.2.length) (companyRounds snaps)).take limit).map
    (fun e =>
      let rounds := e.2
      let roundFreq : PyCounter := rounds.foldl (fun c r => c.inc r.1) []
      let roundTopics : List (String × PyCounter) :=
        rounds.foldl (fun m r => r.2.foldl (fun m' t => incNested m' r.1 t) m) []
      let stages : List (String × ProgStage) := roundFreq.mostCommon.map (fun rf =>
        (rf.1,
          { topics := (((assocGet roundTopics rf.1).getD []).mostCommon.take 5).map (·.1),
            frequency := rf.2 }))
      (e.1, { stages := stages, total_experiences := rounds.length }))

/-- A Firestore field value as the dashboard stats document uses them. -/
inductive FireVal where
  | num (n : Nat)
  | str (s : String)
  | null
  | table (t : List (String × Nat))
  | table2 (t : List (String × List (String × Nat)))
  | prog (t : List (String × ProgSummary))
deriving DecidableEq, Repr

/-- A Firestore document: insertion-ordered string-keyed dict. -/
abbrev FireDoc := List (String × FireVal)

/-- Embeds `data.keys()`. -/
def docKeys (d : FireDoc) : List String := d.map (·.1)

/-- Embeds `_REQUIRED_CACHE_FIELDS` (dashboard.py lines 23–27). -/
def REQUIRED_CACHE_FIELDS : List String :=
  ["total_experiences", "frequent_questions", "interview_progression"]

/-- The per-snapshot counting loop of `_compute_and_cache_stats`
(dashboard.py lines 97–112). -/
structure StatsCounters where
  topic_counter : PyCounter
  difficulty_counter : PyCounter
  company_topic_counts : List (String × PyCounter)
  company_counter : PyCounter

/-- Build the four frequency counters over the active snapshots. -/
def statsCounters (active : List ExperienceSnap) : StatsCounters :=
  active.foldl (fun acc s =>
    { topic_counter := s.topics.foldl (fun c t => c.inc t) acc.topic_counter,
      difficulty_counter := acc.difficulty_counter.inc s.difficulty,
      company_topic_counts :=
        s.topics.foldl (fun m t => incNested m s.company t) acc.company_topic_counts,
      company_counter := acc.company_counter.inc s.company })
    ⟨[], [], [], []⟩

/-- The stats dict built by `_compute_and_cache_stats`
(dashboard.py lines 73–134), after filtering soft-deleted snapshots. -/
def computeStatsDoc (snapshots : List ExperienceSnap) : FireDoc :=
  let active := snapshots.filter (fun s => s.is_active)
  if active.isEmpty then
    [ ("total_experiences", .num 0),
      ("top_company", .null),
      ("top_topic", .null),
      ("topic_totals", .table []),
      ("difficulty_distribution", .table []),
      ("company_topic_counts", .table2 []),
      ("frequent_questions", .table []),
      ("interview_progression", .prog []) ]
  else
    let cs := statsCounters active
    [ ("total_experiences", .num active.length),
      ("top_company", match cs.company_counter.mostCommon.head? with
        | some e => .str e.1
        | none => .null),
      ("top_topic", match cs.topic_counter.mostCommon.head? with
        | some e => .str e.1
        | none => .null),
      ("topic_totals", .table cs.topic_counter),
      ("difficulty_distribution", .table cs.difficulty_counter),
      ("company_topic_counts", .table2 cs.company_topic_counts),
      ("frequent_questions", .table (computeQuestionFrequencies active 10)),
      ("interview_progression", .prog (computeInterviewProgression active 6)) ]

/-- Embeds `_compute_and_cache_stats`: the scan of `interview_experiences` is
not guarded, so a store exception there propagates; the cache write
(lines 137–140) is wrapped in `try/except Exception: pass`, so its
outcome (`cacheWrite`) never affects the result. -/
def computeAndCacheStats (scan : Except Unit (List ExperienceSnap))
    (cacheWrite : Except Unit Unit) : Except Unit FireDoc :=
  match scan with
  | .error e => .error e
  | .ok snaps =>
    match cacheWrite with
    | .ok _ => .ok (computeStatsDoc snaps)
    | .error _ => .ok (computeStatsDoc snaps)

/-- Embeds `_MEM_CACHE_TTL` (300 seconds). -/
def MEM_CACHE_TTL : Nat := 300

/-- The value returned by `_get_or_compute_stats` together with the
module-level `_mem_cache` / `_mem_cache_ts` state it leaves behind. -/
structure DashOutcome where
  result : FireDoc
  memCache : FireDoc
  memCacheTs : Nat
deriving DecidableEq, Repr

/-- Embeds `_get_or_compute_stats` (dashboard.py lines 35–70).  `memCache` is
the module-level `_mem_cache` dict (`[]` is the falsy empty dict),
`storeRead` is the outcome of `stats_ref.get()` — note the source has
no `try/except` around it, so a raised exception propagates — and
`scan` / `cacheWrite` feed the recompute path. -/
def getOrComputeStats (memCache : FireDoc) (memCacheTs now : Nat)
    (storeRead : Except Unit (Option FireDoc))
    (scan : Except Unit (List ExperienceSnap))
    (cacheWrite : Except Unit Unit) : Except Unit DashOutcome :=
  if memCache ≠ [] ∧ now - memCacheTs < MEM_CACHE_TTL then
    .ok ⟨memCache, memCache, memCacheTs⟩
  else
    match storeRead with
    | .error e => .error e
    | .ok (some data) =>
      if REQUIRED_CACHE_FIELDS.all (fun f => (docKeys data).contains f) then
        .ok ⟨data, data, now⟩
      else
        (computeAndCacheStats scan cacheWrite).map (fun r => ⟨r, r, now⟩)
    | .ok none =>
      (computeAndCacheStats scan cacheWrite).map (fun r => ⟨r, r, now⟩)

/-- The normalized dedup key a question contributes, if the question is
eligible (non-empty text, confidence ≥ 0.7, non-empty normal form) —
the skip conditions of the `_compute_question_frequencies` loop. -/
def qNorm? (q : RawQuestion) : Option String :=
  if q.text = "" ∨ q.conf < confThreshold then none
  else if normalizeQuestion q.text = "" then none
  else some (normalizeQuestion q.text)

/-- All dedup keys a snapshot contributes. -/
def eligibleNorms (s : ExperienceSnap) : List String :=
  s.extracted_questions.filterMap qNorm?

/-- The id `id` is recorded under key `n` in a `question_ids` map. -/
def Mentions (m : List (String × List String)) (n id : String) : Prop :=
  ∃ ids, (n, ids) ∈ m ∧ id ∈ ids

/-- Well-formedness of a `question_ids` map: distinct keys (it embeds a
Python dict) and duplicate-free id lists (they embed Python sets). -/
def IdMapWF (m : List (String × List String)) : Prop :=
  (m.map Prod.fst).Nodup ∧ ∀ e ∈ m, e.2.Nodup

/-! ## Experience submission — `app/api/routes/experiences.py`

The claims concern the question-related slice of an experience
document: the flat `extracted_questions` list, the nested
`questions.user_provided` / `questions.ai_extracted` lists, the `stats`
counts and `nlp_status`.  Question dicts are embedded as a structure
with exactly the keys the source writes; the optional `added_at` key is
an `Option` (absent on submission-time questions). -/

/-- A stored question object (the dict shape built by
`_build_user_question_objects` and the `add_questions` loop). -/
structure UserQuestion where
  question_text : String
  question : String
  topic : String
  category : String
  confidence : Rat
  question_type : String
  source : String
  added_later : Bool
  added_at : Option String
  created_at : String
  updated_at : String
deriving DecidableEq, Repr

/-- Embeds `_build_user_question_objects` (experiences.py lines 38–60):
strip each text, skip empties, store the rest verbatim with
placeholder topic/category (classification happens async). -/
def buildUserQuestionObjects (texts : List String) (now : String) :
    List UserQuestion :=
  texts.filterMap (fun t =>
    let t := pyStrip t
    if t = "" then none
    else some
      { question_text := t, question := t, topic := "General",
        category := "theory", confidence := 1, question_type := "extracted",
        source := "user", added_later := false, added_at := none,
        created_at := now, updated_at := now })

/-- The `stats` dict of an experience document. -/
structure ExpQuestionStats where
  user_question_count : Nat
  extracted_question_count : Nat
  total_question_count : Nat
deriving DecidableEq, Repr

/-- Question-related slice of an `interview_experiences` document. -/
structure ExpDocQ where
  extracted_questions : List UserQuestion
  user_provided : List UserQuestion
  ai_extracted : List UserQuestion
  stats : ExpQuestionStats
  nlp_status : String
deriving DecidableEq, Repr

/-- The synchronous phase of `create_experience` (experiences.py lines
238–318), restricted to the question slice of the stored document:
user questions verbatim, no AI questions yet, `nlp_status="pending"`. -/
def createExperienceSync (userQuestions : List String) (now : String) : ExpDocQ :=
  let objs := buildUserQuestionObjects userQuestions now
  { extracted_questions := objs,
    user_provided := objs,
    ai_extracted := [],
    stats := { user_question_count := objs.length,
               extracted_question_count := 0,
               total_question_count := objs.length },
    nlp_status := "pending" }

/-- Result of `pipeline.classify_single_question` as consumed by the
enrichment code (`classified.get("topic"/"category", ...)`; the
pipeline always returns both keys). -/
structure ClassifyResult where
  topic : String
  category : String
deriving DecidableEq, Repr

/-- The per-user-question enrichment of `_run_background_nlp`
(experiences.py lines 91–99): keep all original fields, overwrite
`topic` / `category` with the classification, re-pin `source="user"`,
bump `updated_at`. -/
def enrichUserQuestion (classify : String → ClassifyResult) (now : String)
    (uq : UserQuestion) : UserQuestion :=
  { uq with
    topic := (classify uq.question_text).topic,
    category := (classify uq.question_text).category,
    source := "user",
    updated_at := now }

/-- The AI-question stamping of `_run_background_nlp` (lines 81–87). -/
def stampAiQuestion (now : String) (q : UserQuestion) : UserQuestion :=
  { q with
    created_at := now, updated_at := now,
    source := "ai", question_type := "extracted" }

/-- The Firestore update `_run_background_nlp` writes on success
(experiences.py lines 101–165), restricted to the question slice:
enriched user questions, stamped AI questions, recomputed stats,
`nlp_status="done"`. -/
def runBackgroundNlp (classify : String → ClassifyResult) (now : String)
    (userQuestions rawAiQuestions : List UserQuestion) (doc : ExpDocQ) : ExpDocQ :=
  let aiQuestions := rawAiQuestions.map (stampAiQuestion now)
  let enrichedUser := userQuestions.map (enrichUserQuestion classify now)
  { doc with
    extracted_questions := enrichedUser ++ aiQuestions,
    user_provided := enrichedUser,
    ai_extracted := aiQuestions,
    stats := { user_question_count := enrichedUser.length,
               extracted_question_count := aiQuestions.length,
               total_question_count := enrichedUser.length + aiQuestions.length },
    nlp_status := "done" }

/-- HTTP error outcomes of the synchronous endpoints. -/
inductive HttpError where
  | badRequest
  | notFound
  | forbidden
deriving DecidableEq, Repr

/-- The new-question objects built by `add_questions` (experiences.py
lines 483–500): strip, drop empty or shorter-than-5 texts, mark
`added_later` with an `added_at` stamp. -/
def buildAddedQuestions (texts : List String) (now : String) : List UserQuestion :=
  texts.filterMap (fun t =>
    let t := pyStrip t
    if t = "" ∨ t.length < 5 then none
    else some
      { question_text := t, question := t, topic := "General",
        category := "theory", confidence := 1, question_type := "extracted",
        source := "user", added_later := true, added_at := some now,
        created_at := now, updated_at := now })

/-- Tier 1 of `add_questions` (experiences.py lines 477–542): build the
filtered new-question objects; if none survive, fail with HTTP 400
before any write; otherwise append them to the flat list and the
nested `user_provided`, and recompute stats.  The error case performs
no store write, so the stored record is unchanged. -/
def addQuestionsTier1 (existing : ExpDocQ) (texts : List String) (now : String) :
    Except HttpError ExpDocQ :=
  let newQuestions := buildAddedQuestions texts now
  if newQuestions.isEmpty then .error .badRequest
  else
    let userProvided := existing.user_provided ++ newQuestions
    let aiExtracted := existing.ai_extracted
    .ok { extracted_questions := existing.extracted_questions ++ newQuestions,
          user_provided := userProvided,
          ai_extracted := aiExtracted,
          stats := { user_question_count := userProvided.length,
                     extracted_question_count := aiExtracted.length,
                     total_question_count := userProvided.length + aiExtracted.length },
          nlp_status := existing.nlp_status }

/-! ## Vector Index — `app/services/faiss_store.py`

The FAISS flat inner-product index is embedded by its vector count
(`index.ntotal`); vector contents and similarity scores never influence
the claimed properties, so vectors are opaque rows and scores are
carried as integers.  The two persisted files are modelled explicitly
so that construction from disk (`_load_or_create_index` /
`_load_or_create_mapping`) can be analysed. -/

/-- An embedding vector (contents unused by the claims). -/
abbrev EmbVector := List Int

/-- Durable state of the two FAISS files: the persisted index's vector
count (`none` when `index_path` does not exist) and the persisted
mapping (`none` when `mapping_path` does not exist). -/
structure FaissDisk where
  indexFile : Option Nat
  mappingFile : Option (List String)
deriving DecidableEq, Repr

/-- In-memory state of a `FaissStore`: `index.ntotal` and `mapping`. -/
structure FaissState where
  count : Nat
  mapping : List String
deriving DecidableEq, Repr

/-- Embeds `_load_or_create_index`: read the persisted index if the
file exists, else create an empty one and persist it. -/
def loadOrCreateIndex (d : FaissDisk) : Nat × FaissDisk :=
  match d.indexFile with
  | some n => (n, d)
  | none => (0, { d with indexFile := some 0 })

/-- Embeds `_load_or_create_mapping`: read the persisted mapping if the
file exists, else persist an empty one. -/
def loadOrCreateMapping (d : FaissDisk) : List String × FaissDisk :=
  match d.mappingFile with
  | some m => (m, d)
  | none => ([], { d with mappingFile := some [] })

/-- Embeds `FaissStore.__init__`: load (or create) index and mapping
independently; no consistency check between the two files. -/
def initStore (d : FaissDisk) : FaissState × FaissDisk :=
  let id1 := loadOrCreateIndex d
  let md2 := loadOrCreateMapping id1.2
  ({ count := id1.1, mapping := md2.1 }, md2.2)

/-- Embeds `add_vector` (faiss_store.py lines 70–78): append one row to
the index, append the id to the mapping, persist both, return
`len(mapping) - 1`. -/
def addVector (s : FaissState) (docId : String) : FaissState × FaissDisk × Nat :=
  let s' : FaissState := { count := s.count + 1, mapping := s.mapping ++ [docId] }
  (s', ⟨some s'.count, some s'.mapping⟩, s'.mapping.length - 1)

/-- Embeds `rebuild` (faiss_store.py lines 95–105): fresh index holding
exactly the given vectors (`if vectors:` skips the bulk add when the
list is empty, leaving 0 = its length), mapping replaced by `doc_ids`,
both persisted. -/
def rebuild (vectors : List EmbVector) (docIds : List String) :
    FaissState × FaissDisk :=
  let s' : FaissState := { count := vectors.length, mapping := docIds }
  (s', ⟨some s'.count, some s'.mapping⟩)

/-- The spec's vector-index invariant `len(mapping) == index.count`. -/
def mappingInv (s : FaissState) : Prop := s.mapping.length = s.count

instance : DecidablePred mappingInv := fun _ =>
  inferInstanceAs (Decidable (_ = _))

/-- Embeds `search` (faiss_store.py lines 80–93).  `raw` is the row of
`(ordinal, score)` pairs the underlying `index.search` returns (FAISS
yields ordinals in `[0, ntotal)` or `-1` for "no result"); the loop
drops `-1` and any ordinal with no mapping entry, otherwise reads
`mapping[idx]` (embedded with a default that the safety theorem shows
is never used for in-contract ordinals). -/
def faissSearch (s : FaissState) (raw : List (Int × Int)) : List (String × Int) :=
  if s.count = 0 then []
  else raw.filterMap (fun p =>
    if p.1 = -1 ∨ (s.mapping.length : Int) ≤ p.1 then none
    else some (s.mapping.getD p.1.toNat "", p.2))

/-! ## In-memory TTL caches — `search.py` `_set_cached` and the auth
cache store in `dependencies.py` `get_current_user`

Both caches are insertion-ordered dicts mapping a key to a
`(timestamp, value)` pair; both writers run the same logic with
different `max_entries` (`_SEARCH_CACHE_MAX = 100`,
`_AUTH_CACHE_MAX = 200`), so one parametric embedding covers both. -/

/-- A cache: key → (timestamp, value), in dict insertion order. -/
abbrev TtlCache (α : Type) := List (String × Nat × α)

/-- Embeds `min(cache, key=lambda k: cache[k][0])`: the first entry with
the minimal timestamp (Python's `min` keeps the earliest among ties);
`none` on an empty dict (where CPython would raise `ValueError`). -/
def oldestEntry {α : Type} : TtlCache α → Option (String × Nat)
  | [] => none
  | e :: rest => some (rest.foldl
      (fun best x => if x.2.1 < best.2 then (x.1, x.2.1) else best) (e.1, e.2.1))

/-- Embeds `del cache[oldest]`. -/
def evictOldest {α : Type} (c : TtlCache α) : TtlCache α :=
  match oldestEntry c with
  | none => c
  | some ko => c.eraseP (fun e => e.1 == ko.1)

/-- Embeds `cache[key] = (time.time(), value)`: overwrite in place or
append. -/
def cacheInsert {α : Type} (c : TtlCache α) (k : String) (ts : Nat) (v : α) :
    TtlCache α :=
  if c.any (fun e => e.1 == k) then
    c.map (fun e => if e.1 == k then (e.1, ts, v) else e)
  else c ++ [(k, ts, v)]

/-- Embeds `_set_cached` (search.py lines 51–56) and the auth-cache
store (dependencies.py lines 72–77): when the dict has reached
`max_entries`, evict the entry with the oldest timestamp, then insert
or overwrite. -/
def cachePut {α : Type} (maxEntries : Nat) (c : TtlCache α) (k : String)
    (ts : Nat) (v : α) : TtlCache α :=
  let c1 := if maxEntries ≤ c.length then evictOldest c else c
  cacheInsert c1 k ts v

/-- A whole sequence of `put` operations starting from the empty cache. -/
def cachePutAll {α : Type} (maxEntries : Nat)
    (ops : List (String × Nat × α)) : TtlCache α :=
  ops.foldl (fun c o => cachePut maxEntries c o.1 o.2.1 o.2.2) []

-- ═════════════════════════════════════════════════════════════════════════
-- Theorems
-- ═════════════════════════════════════════════════════════════════════════

/-! ### Counter Ledger lemmas -/

theorem counters_applyInc_topic (d : ParentDoc) (t : String) (n : Int) :
    (applyInc d (.topic_distribution t, n)).counters = d.counters := rfl

theorem counters_applyIncs_topicOnly (l : List (ParentField × Int))
    (hl : ∀ p ∈ l, ∃ t, p.1 = ParentField.topic_distribution t) (d : ParentDoc) :
    (applyIncs d l).counters = d.counters := by
  induction l generalizing d with
  | nil => rfl
  | cons p rest ih =>
    obtain ⟨t, ht⟩ := hl p (by simp)
    have step : (applyInc d p).counters = d.counters := by
      obtain ⟨p1, p2⟩ := p
      cases ht
      rfl
    rw [applyIncs, List.foldl_cons]
    rw [show (List.foldl applyInc (applyInc d p) rest) = applyIncs (applyInc d p) rest from rfl]
    rw [ih (fun q hq => hl q (by simp [hq])), step]

theorem applyIncs_append (d : ParentDoc) (xs ys : List (ParentField × Int)) :
    applyIncs d (xs ++ ys) = applyIncs (applyIncs d xs) ys := by
  simp [applyIncs, List.foldl_append]

theorem counters_applyInc_statusField (d : ParentDoc) (s : QStatus) (n : Int) :
    (applyInc d (statusField s, n)).counters.question_count
        = d.counters.question_count ∧
    (applyInc d (statusField s, n)).counters.unvisited_count
        + (applyInc d (statusField s, n)).counters.practicing_count
        + (applyInc d (statusField s, n)).counters.revised_count
      = d.counters.unvisited_count + d.counters.practicing_count
        + d.counters.revised_count + n := by
  cases s <;> simp [statusField, applyInc] <;> ring

theorem topicBatchIncs_topicOnly (ut : Option String) (oldT : String) :
    ∀ q ∈ topicBatchIncs ut oldT, ∃ t, q.1 = ParentField.topic_distribution t := by
  intro q hq
  cases ut with
  | none => cases hq
  | some nt =>
    have hq' : q ∈ (if nt ≠ "" ∧ nt ≠ oldT then
        [ ((ParentField.topic_distribution oldT), (-1 : Int)),
          ((ParentField.topic_distribution nt), (1 : Int)) ]
      else []) := hq
    by_cases hc : nt ≠ "" ∧ nt ≠ oldT
    · rw [if_pos hc] at hq'
      simp only [List.mem_cons, List.mem_singleton, List.not_mem_nil, or_false] at hq'
      rcases hq' with rfl | rfl
      · exact ⟨oldT, rfl⟩
      · exact ⟨nt, rfl⟩
    · rw [if_neg hc] at hq'; cases hq'

theorem mem_topicSingleEvents (ut : Option String) (oldT : String) {e : WriteEvent}
    (he : e ∈ topicSingleEvents ut oldT) :
    ∃ nt, e = .singleParentInc
      [ (.topic_distribution oldT, -1), (.topic_distribution nt, 1) ] := by
  cases ut with
  | none => cases he
  | some nt =>
    have he' : e ∈ (if nt ≠ oldT then
        [ WriteEvent.singleParentInc
            [ (.topic_distribution oldT, -1), (.topic_distribution nt, 1) ] ]
      else []) := he
    by_cases hc : nt ≠ oldT
    · rw [if_pos hc] at he'
      simp only [List.mem_singleton] at he'
      exact ⟨nt, he'⟩
    · rw [if_neg hc] at he'; cases he'

theorem counterInv_parentFixup {d : ParentDoc} (b : Bool) (hd : counterInv d) :
    counterInv (commitEvent d (.parentFixup b)) := by
  unfold counterInv at hd ⊢
  simp only [commitEvent]
  split <;> simpa using hd

theorem counterInv_singleChild {d : ParentDoc} (w : ChildWrite) (hd : counterInv d) :
    counterInv (commitEvent d (.singleChild w)) := hd

theorem counterInv_topicSingle {d : ParentDoc} (a b : String) (hd : counterInv d) :
    counterInv (commitEvent d (.singleParentInc
      [ (.topic_distribution a, -1), (.topic_distribution b, 1) ])) := by
  unfold counterInv at hd ⊢
  simp only [commitEvent]
  have hto : ∀ q ∈ [((ParentField.topic_distribution a), (-1 : Int)),
      ((ParentField.topic_distribution b), (1 : Int))],
      ∃ t, q.1 = ParentField.topic_distribution t := by
    intro q hq
    simp only [List.mem_cons, List.mem_singleton, List.not_mem_nil, or_false] at hq
    rcases hq with rfl | rfl
    · exact ⟨a, rfl⟩
    · exact ⟨b, rfl⟩
  rw [counters_applyIncs_topicOnly _ hto]
  exact hd

/-- Every write event that any ledger endpoint can emit preserves the
counter invariant. -/
theorem counterInv_commitEvent_of_mem_plan {d : ParentDoc} {e : WriteEvent}
    (op : LedgerOp) (he : e ∈ op.plan) (hd : counterInv d) :
    counterInv (commitEvent d e) := by
  cases op with
  | add p =>
    simp only [LedgerOp.plan, addQuestionPlan, List.mem_cons, List.mem_singleton,
      List.not_mem_nil, or_false] at he
    rcases he with rfl | rfl
    · simp only [commitEvent, List.foldl_cons, List.foldl_nil, commitBatchWrite]
      unfold counterInv at hd ⊢
      simp only [applyIncs, List.foldl_cons, List.foldl_nil]
      rw [counters_applyInc_topic]
      simp only [applyInc]
      omega
    · exact counterInv_parentFixup false hd
  | update p oldS oldT =>
    rw [show LedgerOp.plan (.update p oldS oldT) = updateQuestionPlan p oldS oldT
      from rfl] at he
    unfold updateQuestionPlan at he
    by_cases hemp : QuestionUpdates.isEmpty p
    · rw [if_pos hemp] at he; cases he
    · rw [if_neg hemp] at he
      cases hst : p.status with
      | some newS =>
        rw [hst] at he
        replace he : e ∈ (if newS ≠ oldS then
            [ WriteEvent.batch
                [ .child (.update p),
                  .parentInc ([(statusField oldS, -1), (statusField newS, 1)]
                    ++ topicBatchIncs p.topic oldT) ],
              WriteEvent.parentFixup false ]
          else
            WriteEvent.singleChild (.update p) :: topicSingleEvents p.topic oldT) := he
        by_cases hne : newS ≠ oldS
        · rw [if_pos hne] at he
          simp only [List.mem_cons, List.mem_singleton, List.not_mem_nil, or_false] at he
          rcases he with rfl | rfl
          · simp only [commitEvent, List.foldl_cons, List.foldl_nil, commitBatchWrite]
            rw [show applyIncs d ([(statusField oldS, (-1 : Int)), (statusField newS, 1)]
                  ++ topicBatchIncs p.topic oldT)
                = applyIncs (applyIncs d [(statusField oldS, -1), (statusField newS, 1)])
                    (topicBatchIncs p.topic oldT) from applyIncs_append ..]
            unfold counterInv at hd ⊢
            rw [counters_applyIncs_topicOnly _ (topicBatchIncs_topicOnly p.topic oldT)]
            simp only [applyIncs, List.foldl_cons, List.foldl_nil]
            have h1 := counters_applyInc_statusField d oldS (-1)
            have h2 := counters_applyInc_statusField (applyInc d (statusField oldS, -1)) newS 1
            omega
          · exact counterInv_parentFixup false hd
        · rw [if_neg hne] at he
          simp only [List.mem_cons] at he
          rcases he with rfl | h
          · exact counterInv_singleChild _ hd
          · obtain ⟨nt, rfl⟩ := mem_topicSingleEvents p.topic oldT h
            exact counterInv_topicSingle oldT nt hd
      | none =>
        rw [hst] at he
        simp only [List.mem_cons] at he
        rcases he with rfl | h
        · exact counterInv_singleChild _ hd
        · obtain ⟨nt, rfl⟩ := mem_topicSingleEvents p.topic oldT h
          exact counterInv_topicSingle oldT nt hd
  | delete oldS oldT =>
    simp only [LedgerOp.plan, deleteQuestionPlan, List.mem_cons, List.mem_singleton,
      List.not_mem_nil, or_false] at he
    rcases he with rfl | rfl
    · simp only [commitEvent, List.foldl_cons, List.foldl_nil, commitBatchWrite]
      unfold counterInv at hd ⊢
      simp only [applyIncs, List.foldl_cons, List.foldl_nil]
      rw [counters_applyInc_topic]
      have h1 := counters_applyInc_statusField (applyInc d (ParentField.question_count, -1)) oldS (-1)
      simp only [applyInc] at h1 ⊢
      omega
    · exact counterInv_parentFixup true hd

theorem counterInv_commitAll {d : ParentDoc} (es : List WriteEvent)
    (h : ∀ e ∈ es, ∃ op : LedgerOp, e ∈ op.plan) (hd : counterInv d) :
    counterInv (commitAll d es) := by
  induction es generalizing d with
  | nil => exact hd
  | cons e rest ih =>
    obtain ⟨op, hop⟩ := h e (by simp)
    exact ih (fun x hx => h x (by simp [hx]))
      (counterInv_commitEvent_of_mem_plan op hop hd)

/-- C1: for every practice list, starting from creation with all
counters zero, and for every sequence and interleaving of add-question,
delete-question, and status-change operations on that list, after all
batched writes have committed the parent document satisfies
`question_count == unvisited_count + practicing_count + revised_count`.
An interleaving of concurrent requests is any commit order of the
atomic batches (and standalone writes) those requests emit; since every
parent adjustment is a `firestore.Increment` delta, the committed state
is the fold of the events in commit order. -/
theorem practice_counter_invariant (es : List WriteEvent)
    (h : ∀ e ∈ es, ∃ op : LedgerOp, e ∈ op.plan) :
    counterInv (commitAll ParentDoc.init es) :=
  counterInv_commitAll es h (by unfold counterInv ParentDoc.init; simp)

/-- C2 counterexample: a mutation that changes only a question's topic
does affect the parent's roll-up counters (`topic_distribution`), yet
`update_question` writes it as two separate standalone writes — first
the child update, then the parent counter adjustment — not as one
atomic batch.  So the claim that every counter-affecting mutation is a
single atomic batched write is false at this input. -/
theorem update_topic_only_two_writes :
    updateQuestionPlan { topic := some "DP" } .unvisited "General" =
      [ .singleChild (.update { topic := some "DP" }),
        .singleParentInc [ (.topic_distribution "General", -1),
                           (.topic_distribution "DP", 1) ] ] ∧
    WriteEvent.singleParentInc [ (.topic_distribution "General", -1),
        (.topic_distribution "DP", 1) ]
      ∈ updateQuestionPlan { topic := some "DP" } .unvisited "General" := by
  constructor
  · decide
  · decide

/-- C2 (amended): the create, delete, and status-change mutations each
write the child mutation and the parent's counter adjustments as one
single atomic batched write, and a non-empty topic change occurring in
the same mutation as a status change adjusts its two topic counters in
that same batch; however a topic-only change (no status change) is
written as two separate writes (see the counterexample). -/
theorem practice_mutations_atomic :
    (∀ p : QuestionCreatePayload, ∃ incs,
       addQuestionPlan p =
         [ .batch [ .child (.create p), .parentInc incs ], .parentFixup false ] ∧
       (ParentField.question_count, (1 : Int)) ∈ incs ∧
       (ParentField.unvisited_count, (1 : Int)) ∈ incs) ∧
    (∀ (s : QStatus) (t : String),
       deleteQuestionPlan s t =
         [ .batch [ .child .delete,
             .parentInc [ (.question_count, -1), (statusField s, -1),
                          (.topic_distribution t, -1) ] ], .parentFixup true ]) ∧
    (∀ (p : QuestionUpdatePayload) (oldS : QStatus) (oldT : String) (newS : QStatus),
       p.status = some newS → newS ≠ oldS →
       ∃ incs,
         updateQuestionPlan p oldS oldT =
           [ .batch [ .child (.update p), .parentInc incs ], .parentFixup false ] ∧
         (statusField oldS, (-1 : Int)) ∈ incs ∧
         (statusField newS, (1 : Int)) ∈ incs ∧
         (∀ nt, p.topic = some nt → nt ≠ "" → nt ≠ oldT →
            (ParentField.topic_distribution oldT, (-1 : Int)) ∈ incs ∧
            (ParentField.topic_distribution nt, (1 : Int)) ∈ incs)) := by
  refine ⟨?_, ?_, ?_⟩
  · intro p
    exact ⟨[ (.question_count, 1), (.unvisited_count, 1),
             (.topic_distribution (if p.topic = "" then "General" else p.topic), 1) ],
      rfl, by simp, by simp⟩
  · intro s t
    rfl
  · intro p oldS oldT newS hst hne
    refine ⟨[(statusField oldS, -1), (statusField newS, 1)] ++ topicBatchIncs p.topic oldT,
      ?_, by simp, by simp, ?_⟩
    · unfold updateQuestionPlan
      have hemp : QuestionUpdates.isEmpty p = false := by
        unfold QuestionUpdates.isEmpty
        rw [hst]
        simp
      rw [if_neg (by rw [hemp]; exact Bool.false_ne_true)]
      rw [show (match p.status with
          | some newStatus =>
            if newStatus ≠ oldS then
              [ WriteEvent.batch
                  [ .child (.update p),
                    .parentInc ([(statusField oldS, -1), (statusField newStatus, 1)]
                      ++ topicBatchIncs p.topic oldT) ],
                WriteEvent.parentFixup false ]
            else WriteEvent.singleChild (.update p) :: topicSingleEvents p.topic oldT
          | none => WriteEvent.singleChild (.update p) :: topicSingleEvents p.topic oldT)
        = (if newS ≠ oldS then
              [ WriteEvent.batch
                  [ .child (.update p),
                    .parentInc ([(statusField oldS, -1), (statusField newS, 1)]
                      ++ topicBatchIncs p.topic oldT) ],
                WriteEvent.parentFixup false ]
            else WriteEvent.singleChild (.update p) :: topicSingleEvents p.topic oldT)
        from by rw [hst]]
      rw [if_pos hne]
    · intro nt hpt hnt1 hnt2
      have : topicBatchIncs p.topic oldT =
          [ (.topic_distribution oldT, (-1 : Int)), (.topic_distribution nt, 1) ] := by
        rw [hpt]
        show (if nt ≠ "" ∧ nt ≠ oldT then
            [ ((ParentField.topic_distribution oldT), (-1 : Int)),
              ((ParentField.topic_distribution nt), (1 : Int)) ]
          else []) = _
        rw [if_pos ⟨hnt1, hnt2⟩]
      rw [this]
      constructor <;> simp

/-- Witness for C2 (amended): a concrete status-plus-topic change emits
one batch pairing the child update with all four counter adjustments. -/
theorem practice_mutations_atomic_witness :
    ∃ incs,
      updateQuestionPlan { topic := some "DP", status := some QStatus.revised }
          .unvisited "General" =
        [ .batch [ .child (.update { topic := some "DP", status := some QStatus.revised }),
            .parentInc incs ], .parentFixup false ] ∧
      (statusField .unvisited, (-1 : Int)) ∈ incs ∧
      (statusField .revised, (1 : Int)) ∈ incs ∧
      (ParentField.topic_distribution "General", (-1 : Int)) ∈ incs ∧
      (ParentField.topic_distribution "DP", (1 : Int)) ∈ incs := by
  obtain ⟨incs, heq, h1, h2, h3⟩ :=
    practice_mutations_atomic.2.2 { topic := some "DP", status := some QStatus.revised }
      .unvisited "General" .revised rfl (by decide)
  obtain ⟨h4, h5⟩ := h3 "DP" rfl (by decide) (by decide)
  exact ⟨incs, heq, h1, h2, h4, h5⟩

/-! ### Aggregation Engine: error handling and structural completeness -/

/-- A stats snapshot is structurally complete when it contains every
required field (`_REQUIRED_CACHE_FIELDS.issubset(data.keys())`). -/
def complete (d : FireDoc) : Prop :=
  ∀ f ∈ REQUIRED_CACHE_FIELDS, f ∈ docKeys d

instance : DecidablePred complete := fun _ =>
  inferInstanceAs (Decidable (∀ _ ∈ _, _))

theorem complete_iff_check (d : FireDoc) :
    REQUIRED_CACHE_FIELDS.all (fun f => (docKeys d).contains f) = true ↔ complete d := by
  unfold complete
  simp [List.all_eq_true, List.elem_iff]

theorem computeStatsDoc_complete (snaps : List ExperienceSnap) :
    complete (computeStatsDoc snaps) := by
  intro f hf
  fin_cases hf <;>
    (show _ ∈ docKeys (computeStatsDoc snaps)
     unfold computeStatsDoc
     by_cases hac : (snaps.filter (fun s => s.is_active)).isEmpty = true <;>
       simp only [hac, if_true, if_false, ite_true, ite_false] <;> simp [docKeys])

theorem computeAndCacheStats_ok (snaps : List ExperienceSnap)
    (w : Except Unit Unit) :
    computeAndCacheStats (.ok snaps) w = .ok (computeStatsDoc snaps) := by
  cases w <;> rfl

/-- C3 counterexample: with an empty in-memory cache, an exception in
the durable-store read (`stats_ref.get()`, dashboard.py line 56, not
wrapped in any `try/except`) propagates out of `_get_or_compute_stats`
to its caller, so the claim that any exception during the durable-store
read is swallowed is false. -/
theorem dashboard_read_exception_raises :
    getOrComputeStats [] 0 0 (.error ()) (.ok []) (.ok ()) = .error () := rfl

/-- C3 (amended): only failures of the durable-store *write* of the
stats snapshot are swallowed — whatever the cache-write outcome, the
resolution returns a snapshot without raising, provided the
durable-store read and the recompute scan succeed; an exception in the
durable-store read propagates to the caller (see counterexample). -/
theorem dashboard_write_failures_swallowed (mem : FireDoc) (ts now : Nat)
    (rd : Option FireDoc) (snaps : List ExperienceSnap) (w : Except Unit Unit) :
    ∃ out, getOrComputeStats mem ts now (.ok rd) (.ok snaps) w = .ok out := by
  unfold getOrComputeStats
  split
  · exact ⟨_, rfl⟩
  · cases rd with
    | some d =>
      simp only []
      split
      · exact ⟨_, rfl⟩
      · rw [computeAndCacheStats_ok]
        exact ⟨_, rfl⟩
    | none =>
      rw [computeAndCacheStats_ok]
      exact ⟨_, rfl⟩

/-- C4: every snapshot `_get_or_compute_stats` returns is structurally
complete, and a stored snapshot missing a required field is never
served: (given the module-cache invariant that `_mem_cache` is empty or
complete — it is only ever assigned validated or freshly recomputed
snapshots, as the preserved second conjunct shows) every successful
call returns a complete snapshot and leaves a complete (or empty)
in-memory cache; and when the in-memory cache is empty and the stored
document is incomplete, the call returns exactly the full recompute's
result. -/
theorem dashboard_serves_complete_snapshot (mem : FireDoc) (ts now : Nat)
    (rd : Except Unit (Option FireDoc)) (sc : Except Unit (List ExperienceSnap))
    (w : Except Unit Unit) (hmem : mem = [] ∨ complete mem) :
    (∀ out, getOrComputeStats mem ts now rd sc w = .ok out →
       complete out.result ∧ (out.memCache = [] ∨ complete out.memCache)) ∧
    (∀ d snaps, mem = [] → rd = .ok (some d) → ¬ complete d → sc = .ok snaps →
       getOrComputeStats mem ts now rd sc w =
         .ok ⟨computeStatsDoc snaps, computeStatsDoc snaps, now⟩) := by
  constructor
  · intro out hout
    unfold getOrComputeStats at hout
    split at hout
    · rename_i hhit
      cases hout
      have hcm : complete mem := by
        rcases hmem with rfl | hc
        · exact absurd rfl hhit.1
        · exact hc
      exact ⟨hcm, Or.inr hcm⟩
    · cases rd with
      | error e => cases hout
      | ok readDoc =>
        cases readDoc with
        | some d =>
          simp only [] at hout
          split at hout
          · rename_i hchk
            cases hout
            have hcd : complete d := (complete_iff_check d).mp hchk
            exact ⟨hcd, Or.inr hcd⟩
          · cases sc with
            | error e => cases hout
            | ok snaps =>
              rw [computeAndCacheStats_ok] at hout
              cases hout
              exact ⟨computeStatsDoc_complete snaps,
                Or.inr (computeStatsDoc_complete snaps)⟩
        | none =>
          cases sc with
          | error e => cases hout
          | ok snaps =>
            rw [computeAndCacheStats_ok] at hout
            cases hout
            exact ⟨computeStatsDoc_complete snaps,
              Or.inr (computeStatsDoc_complete snaps)⟩
  · intro d snaps hm hrd hincomplete hsc
    subst hm hrd hsc
    unfold getOrComputeStats
    rw [if_neg (by simp)]
    simp only []
    rw [if_neg (fun hchk => hincomplete ((complete_iff_check d).mp hchk))]
    rw [computeAndCacheStats_ok]
    rfl

/-- Witness for C4: a stored snapshot lacking `frequent_questions` is
not served; the call recomputes and the recomputed snapshot is
complete. -/
theorem dashboard_serves_complete_snapshot_witness :
    getOrComputeStats [] 0 0 (.ok (some [("total_experiences", .num 3)]))
        (.ok []) (.ok ()) =
      .ok ⟨computeStatsDoc [], computeStatsDoc [], 0⟩ ∧
    complete (computeStatsDoc []) := by
  have h := dashboard_serves_complete_snapshot [] 0 0
    (.ok (some [("total_experiences", .num 3)])) (.ok []) (.ok ()) (Or.inl rfl)
  have h2 := h.2 [("total_experiences", .num 3)] [] rfl rfl (by decide) rfl
  exact ⟨h2, (h.1 _ h2).1⟩

/-! ### Question-frequency dedup lemmas -/

theorem mem_insertSet {l : List String} {id a : String} :
    a ∈ insertSet l id ↔ a ∈ l ∨ a = id := by
  unfold insertSet
  by_cases h : id ∈ l
  · rw [if_pos (by simpa [List.elem_iff] using h)]
    constructor
    · exact Or.inl
    · rintro (h1 | rfl)
      · exact h1
      · exact h
  · rw [if_neg (by simpa [List.elem_iff] using h)]
    simp

theorem nodup_insertSet {l : List String} {id : String} (h : l.Nodup) :
    (insertSet l id).Nodup := by
  unfold insertSet
  by_cases hm : id ∈ l
  · rw [if_pos (by simpa [List.elem_iff] using hm)]
    exact h
  · rw [if_neg (by simpa [List.elem_iff] using hm)]
    simp [List.nodup_append, h, hm]

theorem assoc_val_unique {β : Type} {m : List (String × β)}
    (hnd : (m.map Prod.fst).Nodup) {n : String} {a b : β}
    (ha : (n, a) ∈ m) (hb : (n, b) ∈ m) : a = b := by
  induction m with
  | nil => cases ha
  | cons e rest ih =>
    simp only [List.map_cons, List.nodup_cons] at hnd
    rcases List.mem_cons.mp ha with h1 | h1
    · rcases List.mem_cons.mp hb with h2 | h2
      · rw [← h1] at h2
        injection h2 with _ hv
        exact hv.symm
      · exfalso
        apply hnd.1
        have hn : e.1 = n := by rw [← h1]
        rw [hn]
        simpa using List.mem_map_of_mem Prod.fst h2
    · rcases List.mem_cons.mp hb with h2 | h2
      · exfalso
        apply hnd.1
        have hn : e.1 = n := by rw [← h2]
        rw [hn]
        simpa using List.mem_map_of_mem Prod.fst h1
      · exact ih hnd.2 h1 h2

theorem addId_map_fst_of_any {m : List (String × List String)} {k id : String}
    (h : m.any (fun e => e.1 == k) = true) :
    (addId m k id).map Prod.fst = m.map Prod.fst := by
  unfold addId
  rw [if_pos h, List.map_map]
  apply List.map_congr_left
  intro e _
  show (if (e.1 == k) = true then (e.1, insertSet e.2 id) else e).1 = e.1
  split <;> rfl

theorem not_mem_fst_of_any_eq_false {m : List (String × List String)} {k : String}
    (h : ¬ m.any (fun e => e.1 == k) = true) : k ∉ m.map Prod.fst := by
  intro hk
  obtain ⟨e, he, hfst⟩ := List.mem_map.mp hk
  exact h (List.any_eq_true.mpr ⟨e, he, by simp [hfst]⟩)

theorem idMapWF_addId {m : List (String × List String)} {k id : String}
    (h : IdMapWF m) : IdMapWF (addId m k id) := by
  obtain ⟨hk, hv⟩ := h
  by_cases ha : m.any (fun e => e.1 == k) = true
  · constructor
    · rw [addId_map_fst_of_any ha]
      exact hk
    · intro e he
      unfold addId at he
      rw [if_pos ha] at he
      obtain ⟨e0, he0, heq⟩ := List.mem_map.mp he
      by_cases h0 : (e0.1 == k) = true
      · rw [if_pos h0] at heq
        rw [← heq]
        exact nodup_insertSet (hv e0 he0)
      · rw [if_neg h0] at heq
        rw [← heq]
        exact hv e0 he0
  · unfold addId
    rw [if_neg ha]
    constructor
    · rw [List.map_append]
      simp only [List.map_cons, List.map_nil]
      rw [List.nodup_append]
      exact ⟨hk, List.nodup_singleton k,
        by simpa [List.disjoint_right] using not_mem_fst_of_any_eq_false ha⟩
    · intro e he
      rcases List.mem_append.mp he with h1 | h1
      · exact hv e h1
      · simp only [List.mem_singleton] at h1
        rw [h1]
        exact List.nodup_singleton id

theorem mentions_addId {m : List (String × List String)} {k id n id' : String} :
    Mentions (addId m k id) n id' ↔ Mentions m n id' ∨ (n = k ∧ id' = id) := by
  unfold addId Mentions
  by_cases ha : m.any (fun e => e.1 == k) = true
  · rw [if_pos ha]
    constructor
    · rintro ⟨ids, hmem, hid⟩
      obtain ⟨e0, he0, heq⟩ := List.mem_map.mp hmem
      by_cases h0 : (e0.1 == k) = true
      · rw [if_pos h0] at heq
        injection heq with hn hids
        rw [← hids] at hid
        rcases mem_insertSet.mp hid with hin | rfl
        · exact Or.inl ⟨e0.2, by rw [← hn]; exact he0, hin⟩
        · exact Or.inr ⟨by rw [← hn]; exact eq_of_beq h0, rfl⟩
      · rw [if_neg h0] at heq
        rw [heq] at he0
        exact Or.inl ⟨ids, he0, hid⟩
    · rintro (⟨ids, hmem, hid⟩ | ⟨rfl, rfl⟩)
      · by_cases hnk : (n == k) = true
        · exact ⟨insertSet ids id,
            List.mem_map.mpr ⟨(n, ids), hmem, by simp [hnk]⟩,
            mem_insertSet.mpr (Or.inl hid)⟩
        · exact ⟨ids, List.mem_map.mpr ⟨(n, ids), hmem, by simp [hnk]⟩, hid⟩
      · obtain ⟨e, hem, hek⟩ := List.any_eq_true.mp ha
        refine ⟨insertSet e.2 id', ?_, mem_insertSet.mpr (Or.inr rfl)⟩
        refine List.mem_map.mpr ⟨e, hem, ?_⟩
        have : e.1 = n := eq_of_beq (by simpa using hek)
        simp [hek, this]
  · rw [if_neg ha]
    constructor
    · rintro ⟨ids, hmem, hid⟩
      rcases List.mem_append.mp hmem with h1 | h1
      · exact Or.inl ⟨ids, h1, hid⟩
      · simp only [List.mem_singleton] at h1
        injection h1 with hn hids
        rw [hids] at hid
        simp only [List.mem_singleton] at hid
        exact Or.inr ⟨hn, hid⟩
    · rintro (⟨ids, hmem, hid⟩ | ⟨rfl, rfl⟩)
      · exact ⟨ids, List.mem_append_left _ hmem, hid⟩
      · exact ⟨[id'], List.mem_append_right _ (by simp), by simp⟩

theorem processQuestion_questionIds (expId : String) (acc : FreqAcc)
    (q : RawQuestion) :
    (processQuestion expId acc q).questionIds =
      match qNorm? q with
      | none => acc.questionIds
      | some nm => addId acc.questionIds nm expId := by
  unfold processQuestion qNorm?
  by_cases h1 : q.text = "" ∨ q.conf < confThreshold
  · rw [if_pos h1, if_pos h1]
  · rw [if_neg h1, if_neg h1]
    by_cases h2 : normalizeQuestion q.text = ""
    · rw [if_pos h2, if_pos h2]
    · rw [if_neg h2, if_neg h2]

theorem mentions_processQuestion {expId : String} {acc : FreqAcc}
    {q : RawQuestion} {n id : String} :
    Mentions (processQuestion expId acc q).questionIds n id ↔
      Mentions acc.questionIds n id ∨ (qNorm? q = some n ∧ id = expId) := by
  rw [processQuestion_questionIds]
  cases hq : qNorm? q with
  | none => simp [hq]
  | some nm =>
    simp only [hq]
    rw [mentions_addId]
    constructor
    · rintro (hm | ⟨rfl, rfl⟩)
      · exact Or.inl hm
      · exact Or.inr ⟨rfl, rfl⟩
    · rintro (hm | ⟨hqn, rfl⟩)
      · exact Or.inl hm
      · injection hqn with hnm
        exact Or.inr ⟨hnm.symm, rfl⟩

theorem mentions_foldl_questions (qs : List RawQuestion) (expId : String)
    (acc : FreqAcc) (n id : String) :
    Mentions (qs.foldl (processQuestion expId) acc).questionIds n id ↔
      Mentions acc.questionIds n id ∨
        ((∃ q ∈ qs, qNorm? q = some n) ∧ id = expId) := by
  induction qs generalizing acc with
  | nil => simp
  | cons q rest ih =>
    rw [List.foldl_cons, ih, mentions_processQuestion]
    constructor
    · rintro ((hm | ⟨hq, rfl⟩) | ⟨⟨q', hq', hn⟩, rfl⟩)
      · exact Or.inl hm
      · exact Or.inr ⟨⟨q, by simp, hq⟩, rfl⟩
      · exact Or.inr ⟨⟨q', by simp [hq'], hn⟩, rfl⟩
    · rintro (hm | ⟨⟨q', hq', hn⟩, rfl⟩)
      · exact Or.inl (Or.inl hm)
      · rcases List.mem_cons.mp hq' with rfl | hq2
        · exact Or.inl (Or.inr ⟨hn, rfl⟩)
        · exact Or.inr ⟨⟨q', hq2, hn⟩, rfl⟩

theorem mentions_foldl_snaps (snaps : List ExperienceSnap) (acc : FreqAcc)
    (n id : String) :
    Mentions ((snaps.foldl
        (fun a s => s.extracted_questions.foldl (processQuestion s.id) a)
        acc).questionIds) n id ↔
      Mentions acc.questionIds n id ∨
        ∃ s ∈ snaps, id = s.id ∧ n ∈ eligibleNorms s := by
  induction snaps generalizing acc with
  | nil => simp
  | cons s rest ih =>
    rw [List.foldl_cons, ih, mentions_foldl_questions]
    have hnorm : (∃ q ∈ s.extracted_questions, qNorm? q = some n) ↔
        n ∈ eligibleNorms s := by
      simp [eligibleNorms, List.mem_filterMap]
    constructor
    · rintro ((hm | ⟨hq, rfl⟩) | ⟨s', hs', hrest⟩)
      · exact Or.inl hm
      · exact Or.inr ⟨s, by simp, rfl, hnorm.mp hq⟩
      · exact Or.inr ⟨s', by simp [hs'], hrest⟩
    · rintro (hm | ⟨s', hs', hid, hn⟩)
      · exact Or.inl (Or.inl hm)
      · rcases List.mem_cons.mp hs' with rfl | hs2
        · exact Or.inl (Or.inr ⟨hnorm.mpr hn, hid⟩)
        · exact Or.inr ⟨s', hs2, hid, hn⟩

theorem mentions_freqAccOf (snaps : List ExperienceSnap) (n id : String) :
    Mentions (freqAccOf snaps).questionIds n id ↔
      ∃ s ∈ snaps, id = s.id ∧ n ∈ eligibleNorms s := by
  unfold freqAccOf
  rw [mentions_foldl_snaps]
  simp [Mentions]

theorem idMapWF_processQuestion (expId : String) (acc : FreqAcc)
    (q : RawQuestion) (h : IdMapWF acc.questionIds) :
    IdMapWF (processQuestion expId acc q).questionIds := by
  rw [processQuestion_questionIds]
  cases hq : qNorm? q with
  | none => exact h
  | some nm => exact idMapWF_addId h

theorem idMapWF_freqAccOf (snaps : List ExperienceSnap) :
    IdMapWF (freqAccOf snaps).questionIds := by
  have inner : ∀ (qs : List RawQuestion) (expId : String) (a : FreqAcc),
      IdMapWF a.questionIds →
      IdMapWF ((qs.foldl (processQuestion expId) a).questionIds) := by
    intro qs expId
    induction qs with
    | nil => intro a ha; exact ha
    | cons q qrest qih =>
      intro a ha
      rw [List.foldl_cons]
      exact qih _ (idMapWF_processQuestion expId a q ha)
  have outer : ∀ (ss : List ExperienceSnap) (a : FreqAcc),
      IdMapWF a.questionIds →
      IdMapWF ((ss.foldl
        (fun a s => s.extracted_questions.foldl (processQuestion s.id) a)
        a).questionIds) := by
    intro ss
    induction ss with
    | nil => intro a ha; exact ha
    | cons s rest rih =>
      intro a ha
      rw [List.foldl_cons]
      exact rih _ (inner _ _ _ ha)
  exact outer snaps ⟨[], []⟩ ⟨List.nodup_nil, by simp⟩

theorem mem_insertDesc {α : Type} (key : α → Nat) (x a : α) (l : List α) :
    a ∈ insertDesc key x l ↔ a = x ∨ a ∈ l := by
  induction l with
  | nil => simp [insertDesc]
  | cons y ys ih =>
    unfold insertDesc
    by_cases h : key y < key x
    · rw [if_pos h]
      simp
    · rw [if_neg h]
      rw [List.mem_cons, ih, List.mem_cons]
      tauto

theorem mem_sortDesc {α : Type} (key : α → Nat) (l : List α) (a : α) :
    a ∈ sortDesc key l ↔ a ∈ l := by
  suffices h : ∀ acc, a ∈ l.foldl (fun acc x => insertDesc key x acc) acc ↔
      a ∈ acc ∨ a ∈ l by
    simpa [sortDesc] using h []
  induction l with
  | nil => intro acc; simp
  | cons x xs ih =>
    intro acc
    rw [List.foldl_cons, ih, mem_insertDesc, List.mem_cons]
    tauto

/-- C8: in the frequent-questions computation, two eligible questions
with equal normalized forms are merged into one group regardless of
arrival order (the grouped id set of each key is characterised purely
by which snapshots contain an eligible question with that key, a
condition invariant under reordering of the snapshots), the group's
count is the number of distinct contributing experience ids (the id
list is duplicate-free and its members are exactly the contributing
ids), any question contributed by fewer than two records is excluded
from the output, and both strings of the spec's example normalize to
the same key. -/
theorem frequent_questions_dedup :
    normalizeQuestion "What is a Process?" = normalizeQuestion "what is a process" ∧
    (∀ (snaps : List ExperienceSnap) (n : String) (ids : List String),
       (n, ids) ∈ (freqAccOf snaps).questionIds →
       ids.Nodup ∧ ∀ id, (id ∈ ids ↔ ∃ s ∈ snaps, id = s.id ∧ n ∈ eligibleNorms s)) ∧
    (∀ (snaps : List ExperienceSnap) (limit : Nat) (text : String) (c : Nat),
       (text, c) ∈ computeQuestionFrequencies snaps limit →
       2 ≤ c ∧ ∃ n ids, (n, ids) ∈ (freqAccOf snaps).questionIds ∧ c = ids.length ∧
         text = (assocGet (freqAccOf snaps).normToOriginal n).getD "") := by
  refine ⟨by decide, ?_, ?_⟩
  · intro snaps n ids hmem
    have hwf := idMapWF_freqAccOf snaps
    refine ⟨hwf.2 _ hmem, ?_⟩
    intro id
    constructor
    · intro hid
      exact (mentions_freqAccOf snaps n id).mp ⟨ids, hmem, hid⟩
    · intro hex
      obtain ⟨ids', hmem', hid'⟩ := (mentions_freqAccOf snaps n id).mpr hex
      rwa [assoc_val_unique hwf.1 hmem hmem']
  · intro snaps limit text c hmem
    unfold computeQuestionFrequencies at hmem
    have h1 := List.mem_of_mem_take hmem
    rw [mem_sortDesc] at h1
    obtain ⟨e, he, heq⟩ := List.mem_filterMap.mp h1
    by_cases h2 : 2 ≤ e.2.length
    · rw [if_pos h2] at heq
      injection heq with hpair
      injection hpair with ht hc
      rw [← hc]
      refine ⟨h2, e.1, e.2, ?_, rfl, ht.symm⟩
      simpa using he
    · rw [if_neg h2] at heq
      cases heq

/-- Witness for C8: two snapshots containing "What is a Process?" and
"what is a process" produce one merged group of size 2. -/
theorem frequent_questions_dedup_witness :
    2 ≤ 2 ∧ ∃ n ids,
      (n, ids) ∈ (freqAccOf
        [ { id := "e1", extracted_questions := [.obj "What is a Process?" "" 1] },
          { id := "e2", extracted_questions := [.obj "what is a process" "" 1] } ]).questionIds ∧
      2 = ids.length ∧
      "What is a Process?" = (assocGet (freqAccOf
        [ { id := "e1", extracted_questions := [.obj "What is a Process?" "" 1] },
          { id := "e2", extracted_questions := [.obj "what is a process" "" 1] } ]).normToOriginal n).getD "" :=
  frequent_questions_dedup.2.2
    [ { id := "e1", extracted_questions := [.obj "What is a Process?" "" 1] },
      { id := "e2", extracted_questions := [.obj "what is a process" "" 1] } ]
    10 "What is a Process?" 2 (by decide)

/-! ### Experience submission -/

/-- C5 counterexample: after background enrichment with a classifier
that assigns a non-"General" topic, the stored user-provided question
objects differ from the originally submitted objects (their `topic`,
`category` and `updated_at` fields are rewritten), so the claim that
the two submitted question objects remain byte-identical in
`user_provided` is false. -/
theorem user_questions_not_byte_identical :
    (runBackgroundNlp (fun _ => ⟨"Operating Systems", "os"⟩) "t1"
        (buildUserQuestionObjects ["Explain deadlock?", "What is paging?"] "t0") []
        (createExperienceSync ["Explain deadlock?", "What is paging?"] "t0")).user_provided
      ≠ (createExperienceSync
          ["Explain deadlock?", "What is paging?"] "t0").user_provided := by
  decide

/-- C5 (amended): submitting an experience with 2 non-empty user
questions and no prior state yields a synchronous response containing
exactly those 2 questions with `source="user"`,
`total_question_count=2` and `nlp_status="pending"`; after background
enrichment, `nlp_status="done"`, `ai_extracted` holds the stamped AI
questions, and the 2 submitted questions remain in `user_provided`
with `question_text`, legacy `question`, `source`, `created_at`,
`added_later`, `added_at`, `confidence` and `question_type` unchanged —
only `topic`, `category` and `updated_at` may be rewritten by the
asynchronous classification (see counterexample for byte-identity). -/
theorem experience_two_questions (t1 t2 now now2 : String)
    (classify : String → ClassifyResult) (rawAi : List UserQuestion)
    (h1 : pyStrip t1 ≠ "") (h2 : pyStrip t2 ≠ "") :
    (createExperienceSync [t1, t2] now).user_provided =
        buildUserQuestionObjects [t1, t2] now ∧
    (createExperienceSync [t1, t2] now).user_provided.length = 2 ∧
    (∀ q ∈ (createExperienceSync [t1, t2] now).user_provided, q.source = "user") ∧
    ((createExperienceSync [t1, t2] now).user_provided.map
        (fun q => q.question_text) = [pyStrip t1, pyStrip t2]) ∧
    (createExperienceSync [t1, t2] now).stats.total_question_count = 2 ∧
    (createExperienceSync [t1, t2] now).ai_extracted = [] ∧
    (createExperienceSync [t1, t2] now).nlp_status = "pending" ∧
    (runBackgroundNlp classify now2 (buildUserQuestionObjects [t1, t2] now) rawAi
        (createExperienceSync [t1, t2] now)).nlp_status = "done" ∧
    (runBackgroundNlp classify now2 (buildUserQuestionObjects [t1, t2] now) rawAi
        (createExperienceSync [t1, t2] now)).user_provided =
      (buildUserQuestionObjects [t1, t2] now).map (enrichUserQuestion classify now2) ∧
    (∀ (cl : String → ClassifyResult) (ts : String) (uq : UserQuestion),
       (enrichUserQuestion cl ts uq).question_text = uq.question_text ∧
       (enrichUserQuestion cl ts uq).question = uq.question ∧
       (enrichUserQuestion cl ts uq).source = "user" ∧
       (enrichUserQuestion cl ts uq).created_at = uq.created_at ∧
       (enrichUserQuestion cl ts uq).added_later = uq.added_later ∧
       (enrichUserQuestion cl ts uq).added_at = uq.added_at ∧
       (enrichUserQuestion cl ts uq).confidence = uq.confidence ∧
       (enrichUserQuestion cl ts uq).question_type = uq.question_type) := by
  have hb : buildUserQuestionObjects [t1, t2] now =
      [ { question_text := pyStrip t1, question := pyStrip t1, topic := "General",
          category := "theory", confidence := 1, question_type := "extracted",
          source := "user", added_later := false, added_at := none,
          created_at := now, updated_at := now },
        { question_text := pyStrip t2, question := pyStrip t2, topic := "General",
          category := "theory", confidence := 1, question_type := "extracted",
          source := "user", added_later := false, added_at := none,
          created_at := now, updated_at := now } ] := by
    simp [buildUserQuestionObjects, h1, h2]
  have hup : (createExperienceSync [t1, t2] now).user_provided =
      buildUserQuestionObjects [t1, t2] now := rfl
  refine ⟨rfl, ?_, ?_, ?_, ?_, rfl, rfl, rfl, rfl, ?_⟩
  · rw [hup, hb]
    rfl
  · rw [hup, hb]
    intro q hq
    rcases List.mem_cons.mp hq with rfl | hq2
    · rfl
    · rcases List.mem_cons.mp hq2 with rfl | hq3
      · rfl
      · cases hq3
  · rw [hup, hb]
    rfl
  · show (buildUserQuestionObjects [t1, t2] now).length = 2
    rw [hb]
    rfl
  · intro cl ts uq
    exact ⟨rfl, rfl, rfl, rfl, rfl, rfl, rfl, rfl⟩

/-- Witness for C5 (amended): concrete two-question submission. -/
theorem experience_two_questions_witness :
    (createExperienceSync
        ["Explain deadlock?", "What is paging?"] "t0").stats.total_question_count = 2 ∧
    (createExperienceSync
        ["Explain deadlock?", "What is paging?"] "t0").nlp_status = "pending" ∧
    (runBackgroundNlp (fun _ => ⟨"General", "theory"⟩) "t1"
        (buildUserQuestionObjects ["Explain deadlock?", "What is paging?"] "t0") []
        (createExperienceSync
          ["Explain deadlock?", "What is paging?"] "t0")).nlp_status = "done" := by
  have h := experience_two_questions "Explain deadlock?" "What is paging?" "t0" "t1"
    (fun _ => ⟨"General", "theory"⟩) [] (by decide) (by decide)
  exact ⟨h.2.2.2.2.1, h.2.2.2.2.2.2.1, h.2.2.2.2.2.2.2.1⟩

/-- C10: when adding questions to an existing experience, every
submitted question whose stripped text is empty or shorter than 5
characters is silently excluded from the saved record (the saved new
questions are exactly the stripped texts passing the length filter, in
order); if no question survives, the request fails with HTTP 400
before any write, and otherwise the saved record is the existing one
with exactly the surviving questions appended. -/
theorem add_questions_filter (existing : ExpDocQ) (texts : List String)
    (now : String) :
    ((buildAddedQuestions texts now).map (fun q => q.question_text) =
      (texts.map pyStrip).filter (fun t => !decide (t = "" ∨ t.length < 5))) ∧
    ((∀ t ∈ texts, pyStrip t = "" ∨ (pyStrip t).length < 5) →
      addQuestionsTier1 existing texts now = .error .badRequest) ∧
    (∀ doc, addQuestionsTier1 existing texts now = .ok doc →
      buildAddedQuestions texts now ≠ [] ∧
      doc.extracted_questions =
        existing.extracted_questions ++ buildAddedQuestions texts now ∧
      doc.user_provided =
        existing.user_provided ++ buildAddedQuestions texts now) := by
  refine ⟨?_, ?_, ?_⟩
  · induction texts with
    | nil => rfl
    | cons t rest ih =>
      by_cases h1 : pyStrip t = "" <;> by_cases h2 : (pyStrip t).length < 5 <;>
        simpa [buildAddedQuestions, List.filterMap_cons, h1, h2] using ih
  · intro hall
    have hempty : buildAddedQuestions texts now = [] := by
      unfold buildAddedQuestions
      rw [List.filterMap_eq_nil_iff]
      intro t ht
      show (if pyStrip t = "" ∨ (pyStrip t).length < 5 then none else _) = none
      rw [if_pos (hall t ht)]
    unfold addQuestionsTier1
    rw [hempty]
    rfl
  · intro doc hdoc
    unfold addQuestionsTier1 at hdoc
    by_cases he : (buildAddedQuestions texts now).isEmpty
    · rw [if_pos he] at hdoc
      cases hdoc
    · rw [if_neg he] at hdoc
      injection hdoc with hdoc
      refine ⟨by simpa [List.isEmpty_iff] using he, ?_, ?_⟩
      · rw [← hdoc]
      · rw [← hdoc]

/-- Witness for C10: two too-short submissions are rejected with HTTP
400 before any write; a long-enough one is appended. -/
theorem add_questions_filter_witness :
    addQuestionsTier1 ⟨[], [], [], ⟨0, 0, 0⟩, "done"⟩ ["hm?", "   "] "t0" =
      .error .badRequest := by
  exact (add_questions_filter ⟨[], [], [], ⟨0, 0, 0⟩, "done"⟩
    ["hm?", "   "] "t0").2.1 (by decide)

/-! ### Vector Index -/

/-- C6 counterexample: constructing a store from a disk state whose two
files disagree — here an index file persisting 1 vector while the
mapping file is absent — yields `len(mapping) = 0 ≠ 1 = index.count`:
`FaissStore.__init__` loads the two files independently and performs no
consistency check, so the invariant does not hold after every
construction from previously persisted state. -/
theorem faiss_load_mismatch :
    ¬ mappingInv (initStore ⟨some 1, none⟩).1 := by decide

/-- C6 (amended): `len(mapping) == index.count` holds after
construction whenever the persisted files agree (in particular after a
fresh construction with no existing files, and after reloading the
files persisted by `add_vector` or `rebuild`); it is preserved by every
`add_vector`, and established by every `rebuild(vectors, external_ids)`
called with `len(vectors) == len(external_ids)`; but construction from
mismatched files (e.g. a crash between the two persist calls, or a
deleted mapping file) violates it — see the counterexample. -/
theorem faiss_mapping_invariant :
    (∀ d : FaissDisk, d.indexFile.getD 0 = (d.mappingFile.getD []).length →
       mappingInv (initStore d).1) ∧
    (∀ (s : FaissState) (docId : String), mappingInv s →
       mappingInv (addVector s docId).1 ∧
       mappingInv (initStore (addVector s docId).2.1).1 ∧
       (addVector s docId).2.2 = s.mapping.length) ∧
    (∀ (vectors : List EmbVector) (docIds : List String),
       vectors.length = docIds.length →
       mappingInv (rebuild vectors docIds).1 ∧
       mappingInv (initStore (rebuild vectors docIds).2).1) := by
  refine ⟨?_, ?_, ?_⟩
  · intro d hd
    unfold mappingInv initStore loadOrCreateIndex loadOrCreateMapping
    cases hi : d.indexFile with
    | some n =>
      cases hm : d.mappingFile with
      | some m =>
        simp only [hi, hm]
        simpa [hi, hm] using hd.symm
      | none =>
        simp only [hi, hm]
        simp [hi, hm] at hd
        simp [hd]
    | none =>
      cases hm : d.mappingFile with
      | some m =>
        simp only [hi, hm]
        simpa [hi, hm] using hd.symm
      | none =>
        simp [hi, hm]
  · intro s docId hs
    unfold mappingInv at hs ⊢
    refine ⟨?_, ?_, ?_⟩
    · simp [addVector, hs]
    · simp [addVector, initStore, loadOrCreateIndex, loadOrCreateMapping, hs]
    · simp [addVector]
  · intro vectors docIds hlen
    unfold mappingInv
    constructor
    · simpa [rebuild] using hlen.symm
    · simpa [rebuild, initStore, loadOrCreateIndex, loadOrCreateMapping] using hlen.symm

/-- Witness for C6 (amended): concrete add and rebuild histories. -/
theorem faiss_mapping_invariant_witness :
    mappingInv (initStore ⟨none, none⟩).1 ∧
    mappingInv (addVector ⟨2, ["a", "b"]⟩ "c").1 ∧
    mappingInv (rebuild [[1], [2]] ["a", "b"]).1 := by
  refine ⟨faiss_mapping_invariant.1 ⟨none, none⟩ (by decide), ?_, ?_⟩
  · exact (faiss_mapping_invariant.2.1 ⟨2, ["a", "b"]⟩ "c" (by decide)).1
  · exact (faiss_mapping_invariant.2.2 [[1], [2]] ["a", "b"] (by decide)).1

/-- C9: `search` returns the empty list when the index is empty;
otherwise it returns at most as many hits as the underlying index
returned (at most `k`), silently dropping every `-1` ordinal and every
ordinal with no mapping entry, so that each returned external id is
read from a valid mapping position (for in-contract FAISS output,
whose ordinals are ≥ -1). -/
theorem faiss_search_safe (s : FaissState) (raw : List (Int × Int)) (k : Nat)
    (hraw : ∀ p ∈ raw, -1 ≤ p.1) (hlen : raw.length = k) :
    (s.count = 0 → faissSearch s raw = []) ∧
    (faissSearch s raw).length ≤ k ∧
    (∀ r ∈ faissSearch s raw, ∃ (i : Nat) (h : i < s.mapping.length),
       r.1 = s.mapping.get ⟨i, h⟩ ∧ ((i : Int), r.2) ∈ raw) := by
  refine ⟨?_, ?_, ?_⟩
  · intro h0
    unfold faissSearch
    rw [if_pos h0]
  · unfold faissSearch
    split
    · simp
    · rw [← hlen]
      exact List.length_filterMap_le _ _
  · intro r hr
    unfold faissSearch at hr
    split at hr
    · cases hr
    · obtain ⟨p, hp, heq⟩ := List.mem_filterMap.mp hr
      by_cases hc : p.1 = -1 ∨ (s.mapping.length : Int) ≤ p.1
      · rw [if_pos hc] at heq
        cases heq
      · rw [if_neg hc] at heq
        injection heq with heq
        push_neg at hc
        have hge : 0 ≤ p.1 := by
          have := hraw p hp
          omega
        have hlt : p.1.toNat < s.mapping.length := by
          omega
        refine ⟨p.1.toNat, hlt, ?_, ?_⟩
        · rw [← heq]
          rw [List.getD_eq_getElem _ _ hlt]
          simp [List.get_eq_getElem]
        · rw [← heq]
          simpa [Int.toNat_of_nonneg hge] using hp

/-- Witness for C9: a concrete search over a two-entry mapping with an
in-contract raw result row containing a `-1` and an unmapped ordinal. -/
theorem faiss_search_safe_witness :
    faissSearch ⟨2, ["a", "b"]⟩ [(-1, 5), (1, 7), (5, 9)] = [("b", 7)] ∧
    (faissSearch ⟨2, ["a", "b"]⟩ [(-1, 5), (1, 7), (5, 9)]).length ≤ 3 ∧
    (∀ r ∈ faissSearch ⟨2, ["a", "b"]⟩ [(-1, 5), (1, 7), (5, 9)],
       ∃ (i : Nat) (h : i < (["a", "b"] : List String).length),
         r.1 = (["a", "b"] : List String).get ⟨i, h⟩ ∧
         ((i : Int), r.2) ∈ [((-1 : Int), (5 : Int)), (1, 7), (5, 9)]) := by
  have h := faiss_search_safe ⟨2, ["a", "b"]⟩ [(-1, 5), (1, 7), (5, 9)] 3
    (by decide) (by decide)
  exact ⟨by decide, h.2.1, h.2.2⟩

/-! ### TTL cache lemmas -/

theorem foldl_min_spec {α : Type} (xs : List (String × Nat × α)) (b r : String × Nat)
    (hr : r = xs.foldl (fun best x => if x.2.1 < best.2 then (x.1, x.2.1) else best) b) :
    (r = b ∨ ∃ v, (r.1, r.2, v) ∈ xs) ∧ r.2 ≤ b.2 ∧ ∀ e ∈ xs, r.2 ≤ e.2.1 := by
  induction xs generalizing b with
  | nil =>
    subst hr
    exact ⟨Or.inl rfl, Nat.le_refl _, by simp⟩
  | cons x rest ih =>
    rw [List.foldl_cons] at hr
    by_cases hx : x.2.1 < b.2
    · rw [if_pos hx] at hr
      obtain ⟨hmem, hle, hall⟩ := ih (x.1, x.2.1) hr
      refine ⟨?_, by omega, ?_⟩
      · rcases hmem with heq | ⟨v, hv⟩
        · refine Or.inr ⟨x.2.2, ?_⟩
          rw [heq]
          exact List.mem_cons_self _ _
        · exact Or.inr ⟨v, List.mem_cons_of_mem _ hv⟩
      · intro e he
        rcases List.mem_cons.mp he with rfl | he'
        · exact hle
        · exact hall e he'
    · rw [if_neg hx] at hr
      obtain ⟨hmem, hle, hall⟩ := ih b hr
      refine ⟨?_, hle, ?_⟩
      · rcases hmem with heq | ⟨v, hv⟩
        · exact Or.inl heq
        · exact Or.inr ⟨v, List.mem_cons_of_mem _ hv⟩
      · intro e he
        rcases List.mem_cons.mp he with rfl | he'
        · omega
        · exact hall e he'

theorem oldestEntry_spec {α : Type} (c : TtlCache α) (k : String) (ts : Nat)
    (h : oldestEntry c = some (k, ts)) :
    (∃ v, (k, ts, v) ∈ c) ∧ ∀ e ∈ c, ts ≤ e.2.1 := by
  cases c with
  | nil => cases h
  | cons e rest =>
    unfold oldestEntry at h
    injection h with h
    obtain ⟨hmem, hle, hall⟩ := foldl_min_spec rest (e.1, e.2.1) (k, ts) h.symm
    constructor
    · rcases hmem with heq | ⟨v, hv⟩
      · injection heq with h1 h2
        refine ⟨e.2.2, ?_⟩
        rw [h1, h2]
        exact List.mem_cons_self _ _
      · exact ⟨v, List.mem_cons_of_mem _ hv⟩
    · intro x hx
      rcases List.mem_cons.mp hx with rfl | hx'
      · exact hle
      · exact hall x hx'

theorem length_cacheInsert {α : Type} (c : TtlCache α) (k : String) (ts : Nat)
    (v : α) : (cacheInsert c k ts v).length ≤ c.length + 1 := by
  unfold cacheInsert
  split
  · simp
  · simp

theorem length_evictOldest_of_ne_nil {α : Type} (c : TtlCache α) (hne : c ≠ []) :
    (evictOldest c).length = c.length - 1 := by
  unfold evictOldest
  cases hc : oldestEntry c with
  | none =>
    cases c with
    | nil => exact absurd rfl hne
    | cons e rest => simp [oldestEntry] at hc
  | some ko =>
    obtain ⟨⟨v, hv⟩, _⟩ := oldestEntry_spec c ko.1 ko.2 (by rw [hc])
    refine List.length_eraseP_of_mem hv ?_
    simp

theorem length_cachePut {α : Type} (maxEntries : Nat) (hmax : 1 ≤ maxEntries)
    (c : TtlCache α) (k : String) (ts : Nat) (v : α)
    (hc : c.length ≤ maxEntries) :
    (cachePut maxEntries c k ts v).length ≤ maxEntries := by
  unfold cachePut
  by_cases hfull : maxEntries ≤ c.length
  · rw [if_pos hfull]
    show (cacheInsert (evictOldest c) k ts v).length ≤ maxEntries
    have hne : c ≠ [] := by
      intro h
      rw [h] at hfull
      simp at hfull
      omega
    have h1 := length_evictOldest_of_ne_nil c hne
    have h2 := length_cacheInsert (evictOldest c) k ts v
    omega
  · rw [if_neg hfull]
    show (cacheInsert c k ts v).length ≤ maxEntries
    have h2 := length_cacheInsert c k ts v
    omega

theorem length_cachePutAll {α : Type} (maxEntries : Nat) (hmax : 1 ≤ maxEntries)
    (ops : List (String × Nat × α)) :
    (cachePutAll maxEntries ops).length ≤ maxEntries := by
  suffices h : ∀ c : TtlCache α, c.length ≤ maxEntries →
      (ops.foldl (fun c o => cachePut maxEntries c o.1 o.2.1 o.2.2) c).length
        ≤ maxEntries by
    exact h [] (by simp)
  induction ops with
  | nil => intro c hc; exact hc
  | cons o rest ih =>
    intro c hc
    rw [List.foldl_cons]
    exact ih _ (length_cachePut maxEntries hmax c o.1 o.2.1 o.2.2 hc)

/-- C7: for every sequence of `put` operations starting from the empty
cache, the cache's size never exceeds `max_entries`; and whenever a
`put` evicts (the dict is at capacity), the evicted entry is one with
the oldest timestamp among the entries currently present (the first
such in insertion order, as Python's `min`).  The same parametric
writer embeds both the search-result cache (`max_entries = 100`) and
the auth-lookup cache (`max_entries = 200`). -/
theorem cache_bounded_and_oldest_evicted (α : Type) (maxEntries : Nat)
    (hmax : 1 ≤ maxEntries) :
    (∀ ops : List (String × Nat × α),
       (cachePutAll maxEntries ops).length ≤ maxEntries) ∧
    (∀ (c : TtlCache α) (k : String) (ts : Nat) (v : α), maxEntries ≤ c.length →
       ∃ ek ets, oldestEntry c = some (ek, ets) ∧
         (∃ ev, (ek, ets, ev) ∈ c) ∧
         (∀ e ∈ c, ets ≤ e.2.1) ∧
         cachePut maxEntries c k ts v =
           cacheInsert (c.eraseP (fun e => e.1 == ek)) k ts v) := by
  constructor
  · intro ops
    exact length_cachePutAll maxEntries hmax ops
  · intro c k ts v hfull
    cases c with
    | nil =>
      simp at hfull
      omega
    | cons e rest =>
      obtain ⟨⟨ek, ets⟩, hoe⟩ : ∃ r, oldestEntry (e :: rest) = some r := ⟨_, rfl⟩
      obtain ⟨hmem, hall⟩ := oldestEntry_spec (e :: rest) ek ets hoe
      refine ⟨ek, ets, hoe, hmem, hall, ?_⟩
      show cacheInsert
        (if maxEntries ≤ (e :: rest).length then evictOldest (e :: rest)
         else (e :: rest)) k ts v = _
      rw [if_pos hfull]
      unfold evictOldest
      rw [hoe]

/-- Witness for C7: pushing a third entry into a full two-entry cache
stays within bounds, and the eviction targets the oldest timestamp. -/
theorem cache_bounded_and_oldest_evicted_witness :
    (cachePutAll 2 [("a", 5, (0 : Nat)), ("b", 3, 1), ("c", 9, 2)]).length ≤ 2 ∧
    ∃ ek ets, oldestEntry [("a", 5, (0 : Nat)), ("b", 3, 1)] = some (ek, ets) ∧
      (∃ ev, (ek, ets, ev) ∈ [("a", 5, (0 : Nat)), ("b", 3, 1)]) ∧
      (∀ e ∈ [("a", 5, (0 : Nat)), ("b", 3, 1)], ets ≤ e.2.1) ∧
      cachePut 2 [("a", 5, (0 : Nat)), ("b", 3, 1)] "c" 9 2 =
        cacheInsert
          ([("a", 5, (0 : Nat)), ("b", 3, 1)].eraseP (fun e => e.1 == ek)) "c" 9 2 := by
  have h := cache_bounded_and_oldest_evicted Nat 2 (by decide)
  exact ⟨h.1 _, h.2 [("a", 5, 0), ("b", 3, 1)] "c" 9 2 (by decide)⟩

/-- Witness for C1: a concrete interleaved history — add a question,
mark it revised, delete it — satisfies the invariant. -/
theorem practice_counter_invariant_witness :
    counterInv (commitAll ParentDoc.init
      (addQuestionPlan ⟨"Two pointers?", "DP", none, "manual"⟩ ++
       updateQuestionPlan ⟨none, none, none, some .revised⟩ .unvisited "DP" ++
       deleteQuestionPlan .revised "DP")) := by
  apply practice_counter_invariant
  intro e he
  rw [List.append_assoc] at he
  rcases List.mem_append.mp he with h1 | h2
  · exact ⟨.add ⟨"Two pointers?", "DP", none, "manual"⟩, h1⟩
  · rcases List.mem_append.mp h2 with h3 | h4
    · exact ⟨.update ⟨none, none, none, some .revised⟩ .unvisited "DP", h3⟩
    · exact ⟨.delete .revised "DP", h4⟩

end HireLog
